import Mathlib

/-!
Verification of the peer-connection supervisor core
(`p2p/src/supervisor/protocol.rs`): the `Protocol` state machine and its
`transition` operation, shallowly embedded in Lean.  Peer identifiers are
opaque; we model them as naturals.  The `HashMap` of connected peers is
embedded as a function to `Option Direction`, and the two `HashSet`s as
characteristic functions.  The `todo!()` branch for
`DuplicateConnRejected` is embedded as `none` in an `Option` result.
-/

/-- Opaque, comparable peer identifier (`node::Id`). -/
abbrev NodeId := Nat

/-- Direction of a raw connection: accepted (inbound) or dialed (outbound). -/
inductive Direction where
  | Incoming
  | Outgoing
deriving DecidableEq, Repr

/-- Error value (`eyre::Report`); carries a message string. -/
structure Report where
  message : String
deriving DecidableEq, Repr

/-- Construct a `Report` from a plain message (`Report::msg`). -/
def Report.msg (s : String) : Report := ⟨s⟩

/-- Payload of an outgoing application message (`message::Send`). -/
abbrev SendMsg := String

/-- Payload of an incoming application message (`message::Receive`). -/
abbrev ReceiveMsg := String

/-- Peer dialing information (`transport::ConnectInfo`), opaque here. -/
abbrev PeerInfo := Nat

/-- Modelled from the spec: the node-local `Command` requests (the enum
declaration lives in the supervisor module, outside the given sources;
its variants are fixed by the spec's interface section and by the match
arms of `handle_command`). -/
inductive Command where
  | Accept
  | Connect (info : PeerInfo)
  | Disconnect (id : NodeId)
  | Msg (id : NodeId) (msg : SendMsg)
deriving DecidableEq, Repr

/-- Modelled from the spec: the `Input` union consumed by `transition`
(declared in the supervisor module outside the given sources; variants
fixed by the spec's interface section and the match in `transition`). -/
inductive Input where
  | Accepted (id : NodeId)
  | Command (command : Command)
  | Connected (id : NodeId)
  | DuplicateConnRejected (id : NodeId) (report : Report)
  | Receive (id : NodeId) (msg : ReceiveMsg)
  | Stopped (id : NodeId) (report : Option Report)
  | Upgraded (id : NodeId)
  | UpgradeFailed (id : NodeId) (err : Report)
deriving DecidableEq, Repr

/-- Modelled from the spec: externally observable notifications. -/
inductive Event where
  | Connected (id : NodeId) (dir : Direction)
  | Message (id : NodeId) (msg : ReceiveMsg)
  | Disconnected (id : NodeId) (err : Report)
  | Upgraded (id : NodeId)
  | UpgradeFailed (id : NodeId) (err : Report)
deriving DecidableEq, Repr

/-- Modelled from the spec: actions the transport layer must execute. -/
inductive Internal where
  | Accept
  | Connect (info : PeerInfo)
  | Stop (id : NodeId)
  | Upgrade (id : NodeId)
  | SendMessage (id : NodeId) (msg : SendMsg)
deriving DecidableEq, Repr

/-- Modelled from the spec: the `Output` union of `Event` and `Internal`. -/
inductive Output where
  | Event (e : Event)
  | Internal (a : Internal)
deriving DecidableEq, Repr

/-- Modelled from the spec: whether an output is an `Event`. -/
def Output.isEvent : Output → Bool
  | .Event _ => true
  | .Internal _ => false

/-- Modelled from the spec: whether an output is an `Internal` action. -/
def Output.isInternalAction : Output → Bool
  | .Event _ => false
  | .Internal _ => true

/-- The supervisor core state: `connected` maps live raw connections to
their direction (`HashMap<node::Id, Direction>`), `stopped` and
`upgraded` are sets of peer ids (`HashSet<node::Id>`), all embedded as
functions. -/
structure Protocol where
  connected : NodeId → Option Direction
  stopped : NodeId → Bool
  upgraded : NodeId → Bool

/-- The empty state produced by `#[derive(Default)]`. -/
def Protocol.new : Protocol :=
  { connected := fun _ => none, stopped := fun _ => false, upgraded := fun _ => false }

/-- `Protocol::handle_accepted`: record the peer as connected `Incoming`
(overwriting any previous record) and emit `Connected` then `Upgrade`. -/
def Protocol.handle_accepted (s : Protocol) (id : NodeId) : Protocol × List Output :=
  ({ s with connected := fun x => if x = id then some Direction.Incoming else s.connected x },
   [Output.Event (Event.Connected id Direction.Incoming),
    Output.Internal (Internal.Upgrade id)])

/-- `Protocol::handle_command`: translate a local command into transport
actions; a `Msg` to a peer absent from `upgraded` yields no output. -/
def Protocol.handle_command (s : Protocol) (command : Command) : Protocol × List Output :=
  match command with
  | .Accept => (s, [Output.Internal Internal.Accept])
  | .Connect info => (s, [Output.Internal (Internal.Connect info)])
  | .Disconnect id => (s, [Output.Internal (Internal.Stop id)])
  | .Msg peer_id msg =>
    if s.upgraded peer_id then
      (s, [Output.Internal (Internal.SendMessage peer_id msg)])
    else
      (s, [])

/-- `Protocol::handle_connected`: record the peer as connected `Outgoing`
(overwriting any previous record) and emit `Connected` then `Upgrade`. -/
def Protocol.handle_connected (s : Protocol) (id : NodeId) : Protocol × List Output :=
  ({ s with connected := fun x => if x = id then some Direction.Outgoing else s.connected x },
   [Output.Event (Event.Connected id Direction.Outgoing),
    Output.Internal (Internal.Upgrade id)])

/-- `Protocol::handle_receive`: unconditionally report the message;
takes `&self`, so the state is untouched. -/
def Protocol.handle_receive (s : Protocol) (id : NodeId) (msg : ReceiveMsg) :
    Protocol × List Output :=
  (s, [Output.Event (Event.Message id msg)])

/-- `Protocol::handle_stopped`: remove the peer from `upgraded`, insert
it into `stopped`, and report `Disconnected` with the carried error or
the default message (spelled `"successfully disconected"` in the source). -/
def Protocol.handle_stopped (s : Protocol) (id : NodeId) (report : Option Report) :
    Protocol × List Output :=
  ({ s with upgraded := fun x => if x = id then false else s.upgraded x,
            stopped := fun x => if x = id then true else s.stopped x },
   [Output.Event (Event.Disconnected id
      (report.getD (Report.msg "successfully disconected")))])

/-- `Protocol::handle_upgraded`: insert the peer into `upgraded` and
report `Upgraded`; no check against `connected` is made. -/
def Protocol.handle_upgraded (s : Protocol) (id : NodeId) : Protocol × List Output :=
  ({ s with upgraded := fun x => if x = id then true else s.upgraded x },
   [Output.Event (Event.Upgraded id)])

/-- `Protocol::handle_upgrade_failed`: remove the peer from `connected`
and report `UpgradeFailed`; `stopped` and `upgraded` are untouched. -/
def Protocol.handle_upgrade_failed (s : Protocol) (id : NodeId) (err : Report) :
    Protocol × List Output :=
  ({ s with connected := fun x => if x = id then none else s.connected x },
   [Output.Event (Event.UpgradeFailed id err)])

/-- `Protocol::transition`: dispatch one input to its handler.  The
`DuplicateConnRejected` arm is `todo!()` in the source, embedded here as
`none`; every other arm returns the handler's new state and outputs. -/
def Protocol.transition (s : Protocol) (input : Input) : Option (Protocol × List Output) :=
  match input with
  | .Accepted id => some (s.handle_accepted id)
  | .Command command => some (s.handle_command command)
  | .Connected id => some (s.handle_connected id)
  | .DuplicateConnRejected _ _ => none
  | .Receive id msg => some (s.handle_receive id msg)
  | .Stopped id report => some (s.handle_stopped id report)
  | .Upgraded id => some (s.handle_upgraded id)
  | .UpgradeFailed id err => some (s.handle_upgrade_failed id err)

/-- The outputs of one transition, discarding the state. -/
def Protocol.transitionOutputs (s : Protocol) (input : Input) : Option (List Output) :=
  (s.transition input).map Prod.snd

/-- States reachable from the empty state by completed transitions. -/
inductive Protocol.Reachable : Protocol → Prop where
  | init : Protocol.Reachable Protocol.new
  | step {s s' : Protocol} {i : Input} {out : List Output} :
      Protocol.Reachable s → s.transition i = some (s', out) → Protocol.Reachable s'

/-- C1: for every state, id and payload, `transition (Command::Msg id
payload)` returns `[Internal::SendMessage id payload]` exactly when `id`
is in `upgraded` and `[]` otherwise, leaving the state (hence the
`connected`, `upgraded` and `stopped` collections) unchanged. -/
theorem msg_sends_only_to_upgraded (s : Protocol) (id : NodeId) (payload : SendMsg) :
    s.transition (Input.Command (Command.Msg id payload)) =
      some (s, if s.upgraded id then [Output.Internal (Internal.SendMessage id payload)]
               else []) := by
  cases h : s.upgraded id <;>
    simp [Protocol.transition, Protocol.handle_command, h]

/-- C4: `Accepted id` records `connected[id] = Incoming` regardless of
any pre-existing record and outputs exactly `Connected` then `Upgrade`;
`Connected id` is symmetric with direction `Outgoing`. -/
theorem accepted_connected_record_and_upgrade (s : Protocol) (id : NodeId) :
    (∃ s', s.transition (Input.Accepted id) =
        some (s', [Output.Event (Event.Connected id Direction.Incoming),
                   Output.Internal (Internal.Upgrade id)]) ∧
      s'.connected id = some Direction.Incoming ∧
      (∀ x, x ≠ id → s'.connected x = s.connected x) ∧
      s'.upgraded = s.upgraded ∧ s'.stopped = s.stopped) ∧
    (∃ s', s.transition (Input.Connected id) =
        some (s', [Output.Event (Event.Connected id Direction.Outgoing),
                   Output.Internal (Internal.Upgrade id)]) ∧
      s'.connected id = some Direction.Outgoing ∧
      (∀ x, x ≠ id → s'.connected x = s.connected x) ∧
      s'.upgraded = s.upgraded ∧ s'.stopped = s.stopped) := by
  refine ⟨⟨_, rfl, ?_, ?_, rfl, rfl⟩, ⟨_, rfl, ?_, ?_, rfl, rfl⟩⟩ <;>
    simp [Protocol.handle_accepted, Protocol.handle_connected]
  · intro x hx; simp [hx]
  · intro x hx; simp [hx]

/-- C5: `UpgradeFailed id err` removes `id` from `connected` (a no-op
when absent), outputs exactly `[Event::UpgradeFailed id err]`, and
leaves `stopped` and `upgraded` entirely unchanged. -/
theorem upgrade_failed_removes_connected_only (s : Protocol) (id : NodeId) (err : Report) :
    ∃ s', s.transition (Input.UpgradeFailed id err) =
        some (s', [Output.Event (Event.UpgradeFailed id err)]) ∧
      s'.connected id = none ∧
      (∀ x, x ≠ id → s'.connected x = s.connected x) ∧
      s'.stopped = s.stopped ∧ s'.upgraded = s.upgraded := by
  refine ⟨_, rfl, ?_, ?_, rfl, rfl⟩ <;> simp [Protocol.handle_upgrade_failed]
  intro x hx; simp [hx]

/-- C9: `Receive id msg` returns exactly `[Event::Message id msg]` with
no validation and no state change. -/
theorem receive_reports_unconditionally (s : Protocol) (id : NodeId) (msg : ReceiveMsg) :
    s.transition (Input.Receive id msg) =
      some (s, [Output.Event (Event.Message id msg)]) := rfl

/-- The state component of `handle_command` is always the input state:
no command mutates the collections. -/
theorem Protocol.handle_command_fst (s : Protocol) (c : Command) :
    (s.handle_command c).1 = s := by
  cases c with
  | Accept => rfl
  | Connect info => rfl
  | Disconnect id => rfl
  | Msg id m => by_cases h : s.upgraded id <;> simp [Protocol.handle_command, h]

/-- C2: at the failing input `Stopped 0 none`, the code does remove the
peer from `upgraded`, insert it into `stopped`, and emit a single
`Disconnected` event — but the default message it carries is the
misspelled `"successfully disconected"`, not the claimed
`"successfully disconnected"`. -/
theorem stopped_default_message_misspelled :
    Protocol.new.transitionOutputs (Input.Stopped 0 none) =
      some [Output.Event (Event.Disconnected 0 (Report.msg "successfully disconected"))] ∧
    Protocol.new.transitionOutputs (Input.Stopped 0 none) ≠
      some [Output.Event (Event.Disconnected 0 (Report.msg "successfully disconnected"))] ∧
    (Protocol.new.handle_stopped 0 none).1.upgraded 0 = false ∧
    (Protocol.new.handle_stopped 0 none).1.stopped 0 = true := by
  refine ⟨rfl, ?_, rfl, rfl⟩
  decide

/-- C3 fails on the code: the state reached from the empty state by the
single input `Upgraded 0` is reachable, has `0` in `upgraded`, yet `0`
was never in `connected` — `handle_upgraded` performs no connectedness
check, so `upgraded ⊆ connected` is not a reachable-state invariant. -/
theorem upgraded_subset_connected_refuted :
    ¬ (∀ s : Protocol, s.Reachable → ∀ id, s.upgraded id = true →
        (s.connected id).isSome = true) := by
  intro h
  have hstep : Protocol.new.transition (Input.Upgraded 0) =
      some ((Protocol.new.handle_upgraded 0).1, (Protocol.new.handle_upgraded 0).2) := rfl
  have hr : Protocol.Reachable (Protocol.new.handle_upgraded 0).1 :=
    Protocol.Reachable.step Protocol.Reachable.init hstep
  have h0 := h _ hr 0 rfl
  simp [Protocol.handle_upgraded, Protocol.new] at h0

/-- C3 amended: across any completed transition, an id is in `upgraded`
afterwards only if it already was before or the input was exactly
`Upgraded id` — membership is never checked against `connected`. -/
theorem upgraded_entered_only_via_upgraded (s s' : Protocol) (i : Input)
    (out : List Output) (h : s.transition i = some (s', out)) (id : NodeId)
    (hm : s'.upgraded id = true) :
    s.upgraded id = true ∨ i = Input.Upgraded id := by
  cases i with
  | Accepted id' =>
    have h1 : (s.handle_accepted id').1 = s' := congrArg Prod.fst (Option.some.inj h)
    left; rw [← h1] at hm; exact hm
  | Command c =>
    have h1 : (s.handle_command c).1 = s' := congrArg Prod.fst (Option.some.inj h)
    rw [Protocol.handle_command_fst] at h1
    left; rw [← h1] at hm; exact hm
  | Connected id' =>
    have h1 : (s.handle_connected id').1 = s' := congrArg Prod.fst (Option.some.inj h)
    left; rw [← h1] at hm; exact hm
  | DuplicateConnRejected id' r =>
    exact absurd h (by simp [Protocol.transition])
  | Receive id' m =>
    have h1 : (s.handle_receive id' m).1 = s' := congrArg Prod.fst (Option.some.inj h)
    left; rw [← h1] at hm; exact hm
  | Stopped id' r =>
    have h1 : (s.handle_stopped id' r).1 = s' := congrArg Prod.fst (Option.some.inj h)
    rw [← h1] at hm
    by_cases hx : id = id'
    · simp [Protocol.handle_stopped, hx] at hm
    · left; simpa [Protocol.handle_stopped, hx] using hm
  | Upgraded id' =>
    have h1 : (s.handle_upgraded id').1 = s' := congrArg Prod.fst (Option.some.inj h)
    rw [← h1] at hm
    by_cases hx : id = id'
    · right; rw [hx]
    · left; simpa [Protocol.handle_upgraded, hx] using hm
  | UpgradeFailed id' e =>
    have h1 : (s.handle_upgrade_failed id' e).1 = s' := congrArg Prod.fst (Option.some.inj h)
    left; rw [← h1] at hm; exact hm

/-- Witness for the amended C3 at the concrete input `Upgraded 0` taken
from the empty state. -/
theorem upgraded_entered_only_via_upgraded_witness :
    Protocol.new.upgraded 0 = true ∨ Input.Upgraded 0 = Input.Upgraded 0 :=
  upgraded_entered_only_via_upgraded Protocol.new
    (Protocol.new.handle_upgraded 0).1 (Input.Upgraded 0)
    (Protocol.new.handle_upgraded 0).2 rfl 0 rfl

/-- C6: `stopped` is append-only — any id in `stopped` before a
completed transition is still there afterwards, for every input. -/
theorem stopped_append_only (s s' : Protocol) (i : Input) (out : List Output)
    (h : s.transition i = some (s', out)) (id : NodeId)
    (hm : s.stopped id = true) :
    s'.stopped id = true := by
  cases i with
  | Accepted id' =>
    have h1 : (s.handle_accepted id').1 = s' := congrArg Prod.fst (Option.some.inj h)
    rw [← h1]; exact hm
  | Command c =>
    have h1 : (s.handle_command c).1 = s' := congrArg Prod.fst (Option.some.inj h)
    rw [Protocol.handle_command_fst] at h1
    rw [← h1]; exact hm
  | Connected id' =>
    have h1 : (s.handle_connected id').1 = s' := congrArg Prod.fst (Option.some.inj h)
    rw [← h1]; exact hm
  | DuplicateConnRejected id' r =>
    exact absurd h (by simp [Protocol.transition])
  | Receive id' m =>
    have h1 : (s.handle_receive id' m).1 = s' := congrArg Prod.fst (Option.some.inj h)
    rw [← h1]; exact hm
  | Stopped id' r =>
    have h1 : (s.handle_stopped id' r).1 = s' := congrArg Prod.fst (Option.some.inj h)
    rw [← h1]
    by_cases hx : id = id'
    · simp [Protocol.handle_stopped, hx]
    · simpa [Protocol.handle_stopped, hx] using hm
  | Upgraded id' =>
    have h1 : (s.handle_upgraded id').1 = s' := congrArg Prod.fst (Option.some.inj h)
    rw [← h1]; exact hm
  | UpgradeFailed id' e =>
    have h1 : (s.handle_upgrade_failed id' e).1 = s' := congrArg Prod.fst (Option.some.inj h)
    rw [← h1]; exact hm

/-- Witness for C6: id `0`, stopped by a first transition, is still
stopped after a further `Receive` transition. -/
theorem stopped_append_only_witness :
    ((Protocol.new.handle_stopped 0 none).1.handle_receive 1 "m").1.stopped 0 = true :=
  stopped_append_only (Protocol.new.handle_stopped 0 none).1
    ((Protocol.new.handle_stopped 0 none).1.handle_receive 1 "m").1
    (Input.Receive 1 "m")
    ((Protocol.new.handle_stopped 0 none).1.handle_receive 1 "m").2
    rfl 0 rfl

/-- C7: applying `Stopped id none` twice in a row from any state leaves
`stopped` exactly as after the first application (set semantics, the
second insertion changes nothing), with `id` a member, and the second
application still emits a `Disconnected` event for `id`. -/
theorem stopped_twice_idempotent (s : Protocol) (id : NodeId) :
    ∃ s1 out1 s2 out2,
      s.transition (Input.Stopped id none) = some (s1, out1) ∧
      s1.transition (Input.Stopped id none) = some (s2, out2) ∧
      s2.stopped = s1.stopped ∧
      s1.stopped id = true ∧ s2.stopped id = true ∧
      ∃ e, out2 = [Output.Event (Event.Disconnected id e)] := by
  refine ⟨_, _, _, _, rfl, rfl, ?_, ?_, ?_, ⟨_, rfl⟩⟩
  · funext x
    by_cases hx : x = id <;> simp [Protocol.handle_stopped, hx]
  · simp [Protocol.handle_stopped]
  · simp [Protocol.handle_stopped]

/-- C8: `transition` completes for every input except the one
unimplemented variant: it returns `none` exactly on
`DuplicateConnRejected`, whose source arm aborts. -/
theorem transition_total_except_duplicate (s : Protocol) (i : Input) :
    s.transition i = none ↔ ∃ id r, i = Input.DuplicateConnRejected id r := by
  cases i <;> simp [Protocol.transition]

/-- C10: every completed transition returns at most two outputs, among
them at most one `Event` and at most one `Internal` action, and a
two-output list occurs only for `Accepted` or `Connected` inputs. -/
theorem outputs_bounded (s s' : Protocol) (i : Input) (out : List Output)
    (h : s.transition i = some (s', out)) :
    out.length ≤ 2 ∧
    (out.filter Output.isEvent).length ≤ 1 ∧
    (out.filter Output.isInternalAction).length ≤ 1 ∧
    (out.length = 2 →
      (∃ id, i = Input.Accepted id) ∨ ∃ id, i = Input.Connected id) := by
  cases i with
  | Accepted id' =>
    have h2 : (s.handle_accepted id').2 = out := congrArg Prod.snd (Option.some.inj h)
    rw [← h2]
    refine ⟨?_, ?_, ?_, fun _ => Or.inl ⟨id', rfl⟩⟩ <;>
      simp [Protocol.handle_accepted, Output.isEvent, Output.isInternalAction]
  | Command c =>
    have h2 : (s.handle_command c).2 = out := congrArg Prod.snd (Option.some.inj h)
    rw [← h2]
    cases c with
    | Accept =>
      refine ⟨?_, ?_, ?_, ?_⟩ <;>
        simp [Protocol.handle_command, Output.isEvent, Output.isInternalAction]
    | Connect info =>
      refine ⟨?_, ?_, ?_, ?_⟩ <;>
        simp [Protocol.handle_command, Output.isEvent, Output.isInternalAction]
    | Disconnect id' =>
      refine ⟨?_, ?_, ?_, ?_⟩ <;>
        simp [Protocol.handle_command, Output.isEvent, Output.isInternalAction]
    | Msg id' m =>
      by_cases hb : s.upgraded id' <;>
        refine ⟨?_, ?_, ?_, ?_⟩ <;>
          simp [Protocol.handle_command, Output.isEvent, Output.isInternalAction, hb]
  | Connected id' =>
    have h2 : (s.handle_connected id').2 = out := congrArg Prod.snd (Option.some.inj h)
    rw [← h2]
    refine ⟨?_, ?_, ?_, fun _ => Or.inr ⟨id', rfl⟩⟩ <;>
      simp [Protocol.handle_connected, Output.isEvent, Output.isInternalAction]
  | DuplicateConnRejected id' r =>
    exact absurd h (by simp [Protocol.transition])
  | Receive id' m =>
    have h2 : (s.handle_receive id' m).2 = out := congrArg Prod.snd (Option.some.inj h)
    rw [← h2]
    refine ⟨?_, ?_, ?_, ?_⟩ <;>
      simp [Protocol.handle_receive, Output.isEvent, Output.isInternalAction]
  | Stopped id' r =>
    have h2 : (s.handle_stopped id' r).2 = out := congrArg Prod.snd (Option.some.inj h)
    rw [← h2]
    refine ⟨?_, ?_, ?_, ?_⟩ <;>
      simp [Protocol.handle_stopped, Output.isEvent, Output.isInternalAction]
  | Upgraded id' =>
    have h2 : (s.handle_upgraded id').2 = out := congrArg Prod.snd (Option.some.inj h)
    rw [← h2]
    refine ⟨?_, ?_, ?_, ?_⟩ <;>
      simp [Protocol.handle_upgraded, Output.isEvent, Output.isInternalAction]
  | UpgradeFailed id' e =>
    have h2 : (s.handle_upgrade_failed id' e).2 = out := congrArg Prod.snd (Option.some.inj h)
    rw [← h2]
    refine ⟨?_, ?_, ?_, ?_⟩ <;>
      simp [Protocol.handle_upgrade_failed, Output.isEvent, Output.isInternalAction]

/-- Witness for C10 at the concrete input `Accepted 0` from the empty
state, whose output list has length two. -/
theorem outputs_bounded_witness :
    ([Output.Event (Event.Connected 0 Direction.Incoming),
      Output.Internal (Internal.Upgrade 0)] : List Output).length ≤ 2 ∧
    (([Output.Event (Event.Connected 0 Direction.Incoming),
       Output.Internal (Internal.Upgrade 0)] : List Output).filter
        Output.isEvent).length ≤ 1 ∧
    (([Output.Event (Event.Connected 0 Direction.Incoming),
       Output.Internal (Internal.Upgrade 0)] : List Output).filter
        Output.isInternalAction).length ≤ 1 ∧
    (([Output.Event (Event.Connected 0 Direction.Incoming),
       Output.Internal (Internal.Upgrade 0)] : List Output).length = 2 →
      (∃ id, Input.Accepted 0 = Input.Accepted id) ∨
        ∃ id, Input.Accepted 0 = Input.Connected id) :=
  outputs_bounded Protocol.new (Protocol.new.handle_accepted 0).1 (Input.Accepted 0)
    [Output.Event (Event.Connected 0 Direction.Incoming),
     Output.Internal (Internal.Upgrade 0)] rfl
